import Mathlib

set_option maxHeartbeats 1000000

/-!
Verification of the vikunja-mcp filter engine and filters/tasks tools.

The filters tool (`registerFiltersTool`) and the tasks tool dispatch are
embedded from the repository sources.  The filter-expression engine itself
(tokenizer/parser, validator, builder, evaluator) and the task filtering
orchestrator live in modules that are not part of the provided sources
(`src/utils/filters`, `src/tools/tasks/filtering`); those components are
modelled from the specification, as marked on each definition.

Strings are represented as lists of characters (`List Char`); JavaScript
numbers occurring in filter values and task fields are modelled as `Int`;
dates are modelled as their ISO string representations, ordered
lexicographically.
-/

/-- Modelled from the spec: the fixed set of filterable fields (section 3). -/
inductive FilterField where
  | done
  | priority
  | percentDone
  | dueDate
  | assignees
  | labels
  | created
  | updated
  | title
  | description
deriving DecidableEq, Repr

/-- Modelled from the spec: the intrinsic value kind of each field. -/
inductive FieldKind where
  | kBool
  | kNumber
  | kDate
  | kString
  | kIdArray
deriving DecidableEq, Repr

/-- Modelled from the spec: field-to-kind assignment (section 3). -/
def FilterField.kind : FilterField → FieldKind
  | .done => .kBool
  | .priority => .kNumber
  | .percentDone => .kNumber
  | .dueDate => .kDate
  | .assignees => .kIdArray
  | .labels => .kIdArray
  | .created => .kDate
  | .updated => .kDate
  | .title => .kString
  | .description => .kString

/-- Modelled from the spec: the nine filter operators (section 3). -/
inductive FilterOperator where
  | eq
  | ne
  | gt
  | ge
  | lt
  | le
  | like
  | inOp
  | notIn
deriving DecidableEq, Repr

/-- Modelled from the spec: an element of an array value (string or number). -/
inductive ArrayElem where
  | num (n : Int)
  | str (s : List Char)
deriving DecidableEq, Repr

/-- Modelled from the spec: a filter value is a string, number, boolean, or
array of strings/numbers (section 3, `FilterCondition.value`). -/
inductive FilterValue where
  | str (s : List Char)
  | num (n : Int)
  | bool (b : Bool)
  | arr (elems : List ArrayElem)
deriving DecidableEq, Repr

/-- Modelled from the spec: a leaf condition of the AST. -/
structure FilterCondition where
  field : FilterField
  operator : FilterOperator
  value : FilterValue
deriving DecidableEq, Repr

/-- Modelled from the spec: the boolean combinator joining two expressions. -/
inductive Combinator where
  | and
  | or
deriving DecidableEq, Repr

/-- Modelled from the spec: the AST — a leaf condition or a binary node. -/
inductive FilterExpression where
  | cond (c : FilterCondition)
  | binary (op : Combinator) (left right : FilterExpression)
deriving DecidableEq, Repr

/-- Modelled from the spec: a task record as seen by the evaluator; every
attribute may be absent on a given record (section 3, VTask). -/
structure VTask where
  done : Option Bool := none
  priority : Option Int := none
  percentDone : Option Int := none
  dueDate : Option (List Char) := none
  assignees : Option (List Int) := none
  labels : Option (List Int) := none
  created : Option (List Char) := none
  updated : Option (List Char) := none
  title : Option (List Char) := none
  description : Option (List Char) := none
deriving DecidableEq, Repr

/-- Whether the attribute named by a field is present on a task record. -/
def VTask.fieldPresent (t : VTask) : FilterField → Bool
  | .done => t.done.isSome
  | .priority => t.priority.isSome
  | .percentDone => t.percentDone.isSome
  | .dueDate => t.dueDate.isSome
  | .assignees => t.assignees.isSome
  | .labels => t.labels.isSome
  | .created => t.created.isSome
  | .updated => t.updated.isSome
  | .title => t.title.isSome
  | .description => t.description.isSome

/-- Lower-case a character list (for case-insensitive `like`). -/
def lowerChars (s : List Char) : List Char := s.map Char.toLower

/-- Boolean prefix test on character lists. -/
def prefixChars : List Char → List Char → Bool
  | [], _ => true
  | _ :: _, [] => false
  | a :: as, b :: bs => a == b && prefixChars as bs

/-- Boolean substring test on character lists. -/
def subChars (needle : List Char) : List Char → Bool
  | [] => needle.isEmpty
  | b :: bs => prefixChars needle (b :: bs) || subChars needle bs

/-- Modelled from the spec: `like` is case-insensitive substring containment. -/
def likeMatch (hay needle : List Char) : Bool :=
  subChars (lowerChars needle) (lowerChars hay)

/-- Lexicographic strict order on character lists (natural order of ISO
date strings). -/
def charsLt : List Char → List Char → Bool
  | [], [] => false
  | [], _ :: _ => true
  | _ :: _, [] => false
  | a :: as, b :: bs => if a < b then true else if b < a then false else charsLt as bs

/-- Whether an array element matches one of the ids of an id-array field. -/
def elemMatches (ids : List Int) : ArrayElem → Bool
  | .num n => ids.contains n
  | .str _ => false

/-- Modelled from the spec: evaluation of an operator against a boolean
field; any missing field or type mismatch degrades to `false`. -/
def evalBool (fv : Option Bool) (op : FilterOperator) (v : FilterValue) : Bool :=
  match fv, op, v with
  | some b, .eq, .bool x => b == x
  | some b, .ne, .bool x => b != x
  | _, _, _ => false

/-- Modelled from the spec: evaluation against a numeric field (natural
ordering); missing field or type mismatch degrades to `false`. -/
def evalNumber (fv : Option Int) (op : FilterOperator) (v : FilterValue) : Bool :=
  match fv, op, v with
  | some x, .eq, .num n => x == n
  | some x, .ne, .num n => x != n
  | some x, .gt, .num n => decide (n < x)
  | some x, .ge, .num n => decide (n ≤ x)
  | some x, .lt, .num n => decide (x < n)
  | some x, .le, .num n => decide (x ≤ n)
  | _, _, _ => false

/-- Modelled from the spec: evaluation against a date field (natural
ordering of ISO strings); missing field or mismatch degrades to `false`. -/
def evalDate (fv : Option (List Char)) (op : FilterOperator) (v : FilterValue) : Bool :=
  match fv, op, v with
  | some x, .eq, .str s => x == s
  | some x, .ne, .str s => x != s
  | some x, .gt, .str s => charsLt s x
  | some x, .ge, .str s => !(charsLt x s)
  | some x, .lt, .str s => charsLt x s
  | some x, .le, .str s => !(charsLt s x)
  | _, _, _ => false

/-- Modelled from the spec: evaluation against a string field; `like` is
case-insensitive containment; mismatch degrades to `false`. -/
def evalString (fv : Option (List Char)) (op : FilterOperator) (v : FilterValue) : Bool :=
  match fv, op, v with
  | some x, .eq, .str s => x == s
  | some x, .ne, .str s => x != s
  | some x, .like, .str s => likeMatch x s
  | _, _, _ => false

/-- Modelled from the spec: evaluation against an id-array field; `in` is
non-empty intersection, `not in` its negation; mismatch degrades to `false`. -/
def evalIdArray (fv : Option (List Int)) (op : FilterOperator) (v : FilterValue) : Bool :=
  match fv, op, v with
  | some ids, .eq, .arr es => es == ids.map ArrayElem.num
  | some ids, .ne, .arr es => es != ids.map ArrayElem.num
  | some ids, .inOp, .arr es => es.any (elemMatches ids)
  | some ids, .notIn, .arr es => !(es.any (elemMatches ids))
  | _, _, _ => false

/-- Modelled from the spec: evaluate one leaf condition against a task
(section 4.4); an absent field makes the leaf `false` regardless of the
operator (fail-closed). -/
def evalCondition (c : FilterCondition) (t : VTask) : Bool :=
  match c.field with
  | .done => evalBool t.done c.operator c.value
  | .priority => evalNumber t.priority c.operator c.value
  | .percentDone => evalNumber t.percentDone c.operator c.value
  | .dueDate => evalDate t.dueDate c.operator c.value
  | .assignees => evalIdArray t.assignees c.operator c.value
  | .labels => evalIdArray t.labels c.operator c.value
  | .created => evalDate t.created c.operator c.value
  | .updated => evalDate t.updated c.operator c.value
  | .title => evalString t.title c.operator c.value
  | .description => evalString t.description c.operator c.value

/-- Modelled from the spec: evaluate an AST against a task with
short-circuiting boolean combinators (section 4.4). -/
def evaluate : FilterExpression → VTask → Bool
  | .cond c, t => evalCondition c t
  | .binary .and l r, t => evaluate l t && evaluate r t
  | .binary .or l r, t => evaluate l t || evaluate r t

theorem option_isSome_false {α : Type} (o : Option α) (h : o.isSome = false) :
    o = none := by
  cases o with
  | none => rfl
  | some a => simp [Option.isSome] at h

theorem evalBool_none (op : FilterOperator) (v : FilterValue) :
    evalBool none op v = false := by
  cases op <;> cases v <;> rfl

theorem evalNumber_none (op : FilterOperator) (v : FilterValue) :
    evalNumber none op v = false := by
  cases op <;> cases v <;> rfl

theorem evalDate_none (op : FilterOperator) (v : FilterValue) :
    evalDate none op v = false := by
  cases op <;> cases v <;> rfl

theorem evalString_none (op : FilterOperator) (v : FilterValue) :
    evalString none op v = false := by
  cases op <;> cases v <;> rfl

theorem evalIdArray_none (op : FilterOperator) (v : FilterValue) :
    evalIdArray none op v = false := by
  cases op <;> cases v <;> rfl

/-- Claim C2: evaluation is fail-closed — for every filter condition and
every task on which the condition's referenced field is absent, evaluating
the condition returns `false`, regardless of the operator; evaluation is a
total boolean function, so it never raises and every type-mismatch or
missing-field situation degrades to `false`. -/
theorem evaluate_fail_closed (c : FilterCondition) (t : VTask)
    (h : t.fieldPresent c.field = false) :
    evaluate (.cond c) t = false := by
  obtain ⟨f, op, v⟩ := c
  cases f <;>
    simp only [VTask.fieldPresent] at h <;>
    simp only [evaluate, evalCondition, option_isSome_false _ h,
      evalBool_none, evalNumber_none, evalDate_none, evalString_none,
      evalIdArray_none]

/-- Witness for C2 at a concrete condition and the empty task record. -/
theorem evaluate_fail_closed_witness :
    VTask.fieldPresent {} FilterField.priority = false ∧
      evaluate (.cond ⟨.priority, .ge, .num 3⟩) {} = false :=
  ⟨rfl, evaluate_fail_closed ⟨.priority, .ge, .num 3⟩ {} rfl⟩

/-! ## Tokenizer and parser, modelled from the spec (section 4.1) -/

/-- Modelled from the spec: structured parse failures (section 4.1). -/
inductive ParseErr where
  | unexpectedToken (found : List Char)
  | unterminatedLiteral
  | unknownField (found : List Char)
  | unknownOperator (found : List Char)
  | emptyExpression
deriving DecidableEq, Repr

/-- A lexical word: either a quoted string literal (carrying its unescaped
content) or a maximal run of non-space characters. -/
structure Word where
  quoted : Bool
  text : List Char
deriving DecidableEq, Repr

/-- Lexer state: between words, inside a bare word, or inside a quoted
literal (accumulators are reversed). -/
inductive LexMode where
  | start
  | bare (acc : List Char)
  | quote (acc : List Char)
deriving DecidableEq, Repr

/-- Modelled from the spec: split a filter string into words; a double
quote opens a string literal in which a backslash escapes the next
character; an unterminated literal is a lexical error (section 4.1). -/
def lexAux : List Char → LexMode → Except ParseErr (List Word)
  | [], .start => .ok []
  | [], .bare acc => .ok [⟨false, acc.reverse⟩]
  | [], .quote _ => .error .unterminatedLiteral
  | c :: rest, .start =>
      if c = ' ' then lexAux rest .start
      else if c = '"' then lexAux rest (.quote [])
      else lexAux rest (.bare [c])
  | c :: rest, .bare acc =>
      if c = ' ' then
        (fun ws => ⟨false, acc.reverse⟩ :: ws) <$> lexAux rest .start
      else lexAux rest (.bare (c :: acc))
  | c :: rest, .quote acc =>
      if c = '\\' then
        match rest with
        | [] => .error .unterminatedLiteral
        | c2 :: rest2 => lexAux rest2 (.quote (c2 :: acc))
      else if c = '"' then
        (fun ws => ⟨true, acc.reverse⟩ :: ws) <$> lexAux rest .start
      else lexAux rest (.quote (c :: acc))

/-- Digit-run test. -/
def isDigits (s : List Char) : Bool := s.all Char.isDigit

/-- Modelled from the spec: numeric literal pattern — an optional minus
sign followed by one or more decimal digits. -/
def isNumericChars : List Char → Bool
  | [] => false
  | c :: rest =>
      if c = '-' then !rest.isEmpty && isDigits rest
      else isDigits (c :: rest)

/-- Parse a digit run into a natural number (most significant first). -/
def parseNatChars (s : List Char) : Nat :=
  s.foldl (fun acc c => acc * 10 + (c.toNat - 48)) 0

/-- Parse a numeric literal (optional minus sign) into an integer. -/
def parseIntChars : List Char → Int
  | [] => 0
  | c :: rest =>
      if c = '-' then -(parseNatChars rest : Int)
      else (parseNatChars (c :: rest) : Int)

/-- Split a character list on commas (array literal interiors). -/
def splitComma : List Char → List (List Char)
  | [] => [[]]
  | c :: rest =>
      if c = ',' then [] :: splitComma rest
      else
        match splitComma rest with
        | [] => [[c]]
        | p :: ps => (c :: p) :: ps

/-- Modelled from the spec: an array element is a number when it matches
the numeric pattern, otherwise a string (literal pattern, not field type). -/
def classifyElem (s : List Char) : ArrayElem :=
  if isNumericChars s then .num (parseIntChars s) else .str s

/-- Modelled from the spec: interpret a word in value position — quoted
words are string literals; bare words are classified by literal pattern as
boolean, numeric, array (parenthesised, comma-separated), or bare string. -/
def parseValueWord (w : Word) : Except ParseErr FilterValue :=
  if w.quoted then .ok (.str w.text)
  else if w.text.head? = some '(' then
    match (w.text.tail).reverse with
    | ')' :: ri => .ok (.arr ((splitComma ri.reverse).map classifyElem))
    | _ => .error .unterminatedLiteral
  else if w.text = "true".data then .ok (.bool true)
  else if w.text = "false".data then .ok (.bool false)
  else if isNumericChars w.text then .ok (.num (parseIntChars w.text))
  else .ok (.str w.text)

/-- Modelled from the spec: field names as written in filter strings. -/
def fieldName : FilterField → List Char
  | .done => "done".data
  | .priority => "priority".data
  | .percentDone => "percentDone".data
  | .dueDate => "dueDate".data
  | .assignees => "assignees".data
  | .labels => "labels".data
  | .created => "created".data
  | .updated => "updated".data
  | .title => "title".data
  | .description => "description".data

/-- Modelled from the spec: operator spellings as written in filter
strings (the spelling of `not in` contains a space). -/
def opName : FilterOperator → List Char
  | .eq => "=".data
  | .ne => "!=".data
  | .gt => ">".data
  | .ge => ">=".data
  | .lt => "<".data
  | .le => "<=".data
  | .like => "like".data
  | .inOp => "in".data
  | .notIn => "not in".data

/-- Recognise a field name, or report `unknownField`. -/
def parseField (s : List Char) : Except ParseErr FilterField :=
  if s = "done".data then .ok .done
  else if s = "priority".data then .ok .priority
  else if s = "percentDone".data then .ok .percentDone
  else if s = "dueDate".data then .ok .dueDate
  else if s = "assignees".data then .ok .assignees
  else if s = "labels".data then .ok .labels
  else if s = "created".data then .ok .created
  else if s = "updated".data then .ok .updated
  else if s = "title".data then .ok .title
  else if s = "description".data then .ok .description
  else .error (.unknownField s)

/-- Recognise a single-word operator, or report `unknownOperator`. -/
def parseOpWord (s : List Char) : Except ParseErr FilterOperator :=
  if s = "=".data then .ok .eq
  else if s = "!=".data then .ok .ne
  else if s = ">".data then .ok .gt
  else if s = ">=".data then .ok .ge
  else if s = "<".data then .ok .lt
  else if s = "<=".data then .ok .le
  else if s = "like".data then .ok .like
  else if s = "in".data then .ok .inOp
  else .error (.unknownOperator s)

/-- Modelled from the spec: parse one condition group of words
(FIELD OPERATOR value, where the two-word operator is `not in`). -/
def parseConditionWords : List Word → Except ParseErr FilterCondition
  | [⟨false, f⟩, ⟨false, o⟩, v] => do
      let field ← parseField f
      let op ← parseOpWord o
      let val ← parseValueWord v
      .ok ⟨field, op, val⟩
  | [⟨false, f⟩, ⟨false, o1⟩, ⟨false, o2⟩, v] =>
      if o1 = "not".data ∧ o2 = "in".data then do
        let field ← parseField f
        let val ← parseValueWord v
        .ok ⟨field, .notIn, val⟩
      else .error (.unexpectedToken o1)
  | [] => .error (.unexpectedToken [])
  | w :: _ => .error (.unexpectedToken w.text)

/-- Split a word list into condition groups at top-level bare combinator
words, keeping the combinators. -/
def splitGroups : List Word → List Word → List (List Word) × List Combinator
  | [], cur => ([cur.reverse], [])
  | w :: rest, cur =>
      if w = ⟨false, "&&".data⟩ then
        let (gs, cs) := splitGroups rest []
        (cur.reverse :: gs, .and :: cs)
      else if w = ⟨false, "||".data⟩ then
        let (gs, cs) := splitGroups rest []
        (cur.reverse :: gs, .or :: cs)
      else splitGroups rest (w :: cur)

/-- Fold parsed conditions into a left-associative chain. -/
def chainExpr (e : FilterExpression) :
    List (Combinator × FilterExpression) → FilterExpression
  | [] => e
  | (c, e2) :: rest => chainExpr (.binary c e e2) rest

/-- Parse the trailing (combinator, condition) pairs of a chain. -/
def parsePairs : List (List Word) → List Combinator →
    Except ParseErr (List (Combinator × FilterExpression))
  | [], _ => .ok []
  | g :: gs, c :: cs => do
      let cond ← parseConditionWords g
      let rest ← parsePairs gs cs
      .ok ((c, .cond cond) :: rest)
  | _ :: _, [] => .error (.unexpectedToken [])

/-- Parse the condition groups of a chain into a left-associative AST. -/
def parseGroups : List (List Word) → List Combinator →
    Except ParseErr FilterExpression
  | [], _ => .error .emptyExpression
  | g :: gs, cs => do
      let c ← parseConditionWords g
      let rest ← parsePairs gs cs
      .ok (chainExpr (.cond c) rest)

/-- Modelled from the spec: parse a character list into an AST or a
structured error; blank input is `emptyExpression`; parsing never
partially succeeds (section 4.1). -/
def parseChars (s : List Char) : Except ParseErr FilterExpression :=
  match lexAux s .start with
  | .error e => .error e
  | .ok ws =>
      if ws.isEmpty then .error .emptyExpression
      else
        match splitGroups ws [] with
        | (gs, cs) => parseGroups gs cs

/-- `parseFilterString` of `src/utils/filters`, modelled from the spec. -/
def parseFilterString (s : String) : Except ParseErr FilterExpression :=
  parseChars s.data

deriving instance DecidableEq for Except

/-- Scenario A parse check: the example filter string of the spec parses
to the expected two-condition AND chain. -/
example :
    parseFilterString "priority >= 3 && done = false" =
      .ok (.binary .and (.cond ⟨.priority, .ge, .num 3⟩)
        (.cond ⟨.done, .eq, .bool false⟩)) := by
  decide

/-- Scenario B parse check. -/
example :
    parseFilterString "labels in (1,2)" =
      .ok (.cond ⟨.labels, .inOp, .arr [.num 1, .num 2]⟩) := by
  decide

/-- Scenario C parse check: an unknown operator token is a parse error
naming the offending token. -/
example :
    parseFilterString "priority >>> 3" = .error (.unknownOperator ">>>".data) := by
  decide

/-! ## Serializer and builder, modelled from the spec (sections 4.3 and 6) -/

/-- Decimal digits of a natural number, most significant first; fuelled
structural recursion (`natChars` supplies sufficient fuel). -/
def natCharsAux : Nat → Nat → List Char
  | 0, _ => []
  | fuel + 1, n =>
      if n = 0 then []
      else natCharsAux fuel (n / 10) ++ [Nat.digitChar (n % 10)]

/-- Decimal rendering of a natural number. -/
def natChars (n : Nat) : List Char :=
  if n = 0 then ['0'] else natCharsAux (n + 1) n

/-- Decimal rendering of an integer. -/
def intChars (n : Int) : List Char :=
  if n < 0 then '-' :: natChars (-n).toNat else natChars n.toNat

/-- Whether a string value may be serialised as a bare word: re-lexing
must keep it one bare word and re-classification must keep it a string. -/
def bareSafe (s : List Char) : Bool :=
  decide (s ≠ [] ∧ ' ' ∉ s ∧ s.head? ≠ some '"' ∧ s.head? ≠ some '(' ∧
      s ≠ "&&".data ∧ s ≠ "||".data ∧ s ≠ "true".data ∧ s ≠ "false".data) &&
    !isNumericChars s

/-- Escape a string for a quoted literal: backslash escapes the double
quote and the backslash. -/
def escapeChars : List Char → List Char
  | [] => []
  | c :: rest =>
      if c = '"' ∨ c = '\\' then '\\' :: c :: escapeChars rest
      else c :: escapeChars rest

/-- Canonical rendering of an array element. -/
def elemChars : ArrayElem → List Char
  | .num n => intChars n
  | .str s => s

/-- Join character lists with a single separator character. -/
def joinWith (sep : Char) : List (List Char) → List Char
  | [] => []
  | [x] => x
  | x :: xs => x ++ sep :: joinWith sep xs

/-- Modelled from the spec: canonical rendering of a value as one word —
strings are bare unless unsafe for re-lexing, in which case they are
quoted; arrays render parenthesised and comma-separated (section 6). -/
def valueWord : FilterValue → Word
  | .str s => if bareSafe s then ⟨false, s⟩ else ⟨true, s⟩
  | .num n => ⟨false, intChars n⟩
  | .bool true => ⟨false, "true".data⟩
  | .bool false => ⟨false, "false".data⟩
  | .arr es => ⟨false, '(' :: (joinWith ',' (es.map elemChars) ++ [')'])⟩

/-- Render one word back to characters. -/
def renderWord (w : Word) : List Char :=
  if w.quoted then '"' :: (escapeChars w.text ++ ['"']) else w.text

/-- Render a word list, separating words with single spaces. -/
def renderWords : List Word → List Char
  | [] => []
  | [w] => renderWord w
  | w :: ws => renderWord w ++ ' ' :: renderWords ws

/-- The word sequence of one condition in canonical form. -/
def conditionWords (c : FilterCondition) : List Word :=
  match c.operator with
  | .notIn =>
      [⟨false, fieldName c.field⟩, ⟨false, "not".data⟩, ⟨false, "in".data⟩,
        valueWord c.value]
  | op => [⟨false, fieldName c.field⟩, ⟨false, opName op⟩, valueWord c.value]

/-- The canonical string of one condition. -/
def serializeCondition (c : FilterCondition) : List Char :=
  renderWords (conditionWords c)

/-- Combinator token as a word. -/
def combWord : Combinator → Word
  | .and => ⟨false, "&&".data⟩
  | .or => ⟨false, "||".data⟩

/-- Modelled from the spec: word sequence of an AST — conditions in
canonical form joined by explicit combinator tokens (section 6). -/
def exprWords : FilterExpression → List Word
  | .cond c => conditionWords c
  | .binary op l r => exprWords l ++ combWord op :: exprWords r

/-- Modelled from the spec: serialize an AST to its canonical filter
string. -/
def serializeExpr (e : FilterExpression) : List Char := renderWords (exprWords e)

/-- Modelled from the spec: the fluent FilterBuilder accumulator — the
current expression and the combinator pending for the next condition,
defaulting to AND (section 4.3). -/
structure FilterBuilder where
  expr : Option FilterExpression := none
  nextComb : Combinator := .and
deriving DecidableEq, Repr

/-- Modelled from the spec: `where(field, operator, value)` — the first
call establishes the leaf, later calls combine with the pending
combinator, which then resets to the AND default. -/
def FilterBuilder.whereCond (b : FilterBuilder) (f : FilterField)
    (o : FilterOperator) (v : FilterValue) : FilterBuilder :=
  match b.expr with
  | none => { expr := some (.cond ⟨f, o, v⟩), nextComb := .and }
  | some e =>
      { expr := some (.binary b.nextComb e (.cond ⟨f, o, v⟩)), nextComb := .and }

/-- Modelled from the spec: `and()` sets the pending combinator. -/
def FilterBuilder.andComb (b : FilterBuilder) : FilterBuilder :=
  { b with nextComb := .and }

/-- Modelled from the spec: `or()` sets the pending combinator. -/
def FilterBuilder.orComb (b : FilterBuilder) : FilterBuilder :=
  { b with nextComb := .or }

/-- Modelled from the spec: `toString()` serializes the accumulated AST;
zero conditions serialize to the empty string (section 4.3). -/
def FilterBuilder.toStringChars (b : FilterBuilder) : List Char :=
  match b.expr with
  | none => []
  | some e => serializeExpr e

/-- From the source (registerFiltersTool, case build): every condition
after the first is preceded by `or()` exactly when the group operator is
the OR spelling; otherwise no combinator call is made, leaving the
builder's AND default. -/
def buildSteps (grpOr : Bool) : FilterBuilder → List FilterCondition → FilterBuilder
  | b, [] => b
  | b, c :: cs =>
      buildSteps grpOr
        ((if grpOr then b.orComb else b).whereCond c.field c.operator c.value) cs

/-- From the source (case build): fold all request conditions through the
builder. -/
def buildActionBuilder (cs : List FilterCondition) (grpOr : Bool) : FilterBuilder :=
  match cs with
  | [] => {}
  | c :: rest =>
      buildSteps grpOr (FilterBuilder.whereCond {} c.field c.operator c.value) rest

/-- From the source (case build): the filter string of the response. -/
def buildActionFilter (cs : List FilterCondition) (grpOr : Bool) : List Char :=
  (buildActionBuilder cs grpOr).toStringChars

/-- Error classes raised by the filters tool: `createValidationError` and
`MCPError` with code NOT_FOUND (from the source). -/
inductive ToolErr where
  | validation (msg : List Char)
  | notFound (msg : List Char)
deriving DecidableEq, Repr

/-- From the source (case build): the build action response payload
(`filter`, `valid`, `warnings`). -/
structure BuildResponse where
  filter : List Char
  valid : Bool
  warnings : List (List Char)
deriving DecidableEq, Repr

/-- From the source (case build): the action never rejects — it returns
the built string with `valid := true` and no warnings. -/
def buildAction (cs : List FilterCondition) (grpOr : Bool) :
    Except ToolErr BuildResponse :=
  .ok ⟨buildActionFilter cs grpOr, true, []⟩

/-- Left-associative uniform chain extension of an expression. -/
def chainAstAux (comb : Combinator) :
    FilterExpression → List FilterCondition → FilterExpression
  | e, [] => e
  | e, c :: cs => chainAstAux comb (.binary comb e (.cond c)) cs

/-- Join character lists with a separator list. -/
def joinChars (sep : List Char) : List (List Char) → List Char
  | [] => []
  | [x] => x
  | x :: xs => x ++ (sep ++ joinChars sep xs)

theorem conditionWords_ne_nil (c : FilterCondition) : conditionWords c ≠ [] := by
  unfold conditionWords
  cases c.operator <;> simp

theorem exprWords_ne_nil (e : FilterExpression) : exprWords e ≠ [] := by
  induction e with
  | cond c => exact conditionWords_ne_nil c
  | binary op l r ihl ihr =>
      unfold exprWords
      intro hx
      exact ihl (List.append_eq_nil.mp hx).1

theorem renderWords_cons (w : Word) (ws : List Word) (h : ws ≠ []) :
    renderWords (w :: ws) = renderWord w ++ ' ' :: renderWords ws := by
  cases ws with
  | nil => exact absurd rfl h
  | cons y ys => rfl

theorem renderWords_append (ws1 ws2 : List Word) (h1 : ws1 ≠ []) (h2 : ws2 ≠ []) :
    renderWords (ws1 ++ ws2) = renderWords ws1 ++ ' ' :: renderWords ws2 := by
  induction ws1 with
  | nil => exact absurd rfl h1
  | cons w ws ih =>
      cases ws with
      | nil =>
          rw [List.singleton_append, renderWords_cons w ws2 h2]
          rfl
      | cons y ys =>
          rw [List.cons_append,
            renderWords_cons w ((y :: ys) ++ ws2) (by simp),
            renderWords_cons w (y :: ys) (by simp), ih (by simp)]
          simp

/-- The characters inserted between two serialized conditions. -/
def combSep (comb : Combinator) : List Char :=
  ' ' :: (renderWord (combWord comb) ++ [' '])

theorem serializeExpr_binary (op : Combinator) (l r : FilterExpression) :
    serializeExpr (.binary op l r) =
      serializeExpr l ++ (combSep op ++ serializeExpr r) := by
  show renderWords (exprWords l ++ combWord op :: exprWords r) = _
  rw [renderWords_append _ _ (exprWords_ne_nil l) (by simp),
    renderWords_cons _ _ (exprWords_ne_nil r)]
  simp [combSep, serializeExpr]

theorem joinChars_glue (sep x y : List Char) (rest : List (List Char)) :
    joinChars sep ((x ++ (sep ++ y)) :: rest) = joinChars sep (x :: y :: rest) := by
  cases rest with
  | nil => simp [joinChars]
  | cons r rs => simp [joinChars]

theorem buildSteps_chain (grpOr : Bool) (cs : List FilterCondition)
    (e : FilterExpression) :
    buildSteps grpOr ⟨some e, .and⟩ cs =
      ⟨some (chainAstAux (if grpOr then .or else .and) e cs), .and⟩ := by
  induction cs generalizing e with
  | nil => rfl
  | cons c cs ih =>
      cases grpOr <;>
        simp only [buildSteps, FilterBuilder.orComb, FilterBuilder.whereCond,
          chainAstAux, Bool.false_eq_true, if_false, if_true] <;>
        exact ih _

theorem serialize_chainAstAux (comb : Combinator) (cs : List FilterCondition)
    (e : FilterExpression) :
    serializeExpr (chainAstAux comb e cs) =
      joinChars (combSep comb) (serializeExpr e :: cs.map serializeCondition) := by
  induction cs generalizing e with
  | nil => rfl
  | cons c cs ih =>
      simp only [chainAstAux, List.map_cons]
      rw [ih,
        show serializeExpr (.binary comb e (.cond c)) =
            serializeExpr e ++ (combSep comb ++ serializeCondition c) from
          serializeExpr_binary comb e (.cond c)]
      exact joinChars_glue _ _ _ _

/-- Claim C5: for the build action on a non-empty condition list, the
returned filter string joins the conditions' serialized forms with the OR
token exactly when the group operator is the OR spelling, and with the
AND token otherwise — AND is the default combinator when none was
requested. -/
theorem buildAction_join (cs : List FilterCondition) (grpOr : Bool) (h : cs ≠ []) :
    buildActionFilter cs grpOr =
      joinChars (if grpOr then " || ".data else " && ".data)
        (cs.map serializeCondition) := by
  cases cs with
  | nil => exact absurd rfl h
  | cons c rest =>
      have hsep : combSep (if grpOr then Combinator.or else Combinator.and) =
          (if grpOr then " || ".data else " && ".data) := by
        cases grpOr <;> rfl
      calc buildActionFilter (c :: rest) grpOr
          = (buildSteps grpOr ⟨some (.cond c), .and⟩ rest).toStringChars := rfl
        _ = (FilterBuilder.mk
              (some (chainAstAux (if grpOr then .or else .and) (.cond c) rest))
              .and).toStringChars := by rw [buildSteps_chain]
        _ = serializeExpr (chainAstAux (if grpOr then .or else .and)
              (.cond c) rest) := rfl
        _ = joinChars (combSep (if grpOr then .or else .and))
              (serializeCondition c :: rest.map serializeCondition) :=
            serialize_chainAstAux _ _ _
        _ = joinChars (if grpOr then " || ".data else " && ".data)
              ((c :: rest).map serializeCondition) := by rw [hsep]; rfl

/-- Witness for C5: two conditions without a group operator join with the
AND token; the resulting string is the Scenario A filter. -/
theorem buildAction_join_witness :
    ([⟨.priority, .ge, .num 3⟩, ⟨.done, .eq, .bool false⟩] :
        List FilterCondition) ≠ [] ∧
      buildActionFilter [⟨.priority, .ge, .num 3⟩, ⟨.done, .eq, .bool false⟩] false =
        joinChars " && ".data
          (([⟨.priority, .ge, .num 3⟩, ⟨.done, .eq, .bool false⟩] :
            List FilterCondition).map serializeCondition) :=
  ⟨by decide, buildAction_join _ false (by decide)⟩

/-! ## Saved-filter storage and the filters tool actions (from the source) -/

/-- From the source (types/filters): a saved filter record; creation and
update timestamps are presentation-only and omitted. -/
structure SavedFilter where
  id : List Char
  name : List Char
  description : Option (List Char) := none
  filter : List Char
  projectId : Option Int := none
  isGlobal : Bool := false
deriving DecidableEq, Repr

/-- Session-scoped saved-filter storage, modelled as the list of stored
records. -/
abbrev Storage := List SavedFilter

/-- Storage lookup by id. -/
def storageGet (st : Storage) (i : List Char) : Option SavedFilter :=
  st.find? (fun f => f.id == i)

/-- Storage lookup by name. -/
def storageFindByName (st : Storage) (nm : List Char) : Option SavedFilter :=
  st.find? (fun f => f.name == nm)

/-- Storage create: assign a fresh id and append the record. -/
def storageCreate (st : Storage) (rec : SavedFilter) : SavedFilter × Storage :=
  let f := { rec with id := natChars st.length }
  (f, st ++ [f])

/-- The updatable fields passed to storage.update. -/
structure FilterUpdate where
  name : Option (List Char) := none
  description : Option (List Char) := none
  filter : Option (List Char) := none
  projectId : Option Int := none
  isGlobal : Option Bool := none
deriving DecidableEq, Repr

/-- Apply provided update fields to a record. -/
def applyUpdate (u : FilterUpdate) (f : SavedFilter) : SavedFilter :=
  { f with
    name := u.name.getD f.name
    description := match u.description with
      | some d => some d
      | none => f.description
    filter := u.filter.getD f.filter
    projectId := match u.projectId with
      | some p => some p
      | none => f.projectId
    isGlobal := u.isGlobal.getD f.isGlobal }

/-- Storage update: modify the record with the given id, or report
NOT_FOUND. -/
def storageUpdate (st : Storage) (i : List Char) (u : FilterUpdate) :
    Except ToolErr (SavedFilter × Storage) :=
  match storageGet st i with
  | none => .error (.notFound "Filter with id not found".data)
  | some f =>
      let f2 := applyUpdate u f
      .ok (f2, st.map (fun g => if g.id == i then f2 else g))

/-- Storage delete: remove the record with the given id. -/
def storageDelete (st : Storage) (i : List Char) : Storage :=
  st.filter (fun f => !(f.id == i))

/-- From the source (CreateFilterSchema): the structured filters object. -/
structure RawFilters where
  filter_by : Option (List (List Char)) := none
  filter_value : Option (List (List Char)) := none
  filter_comparator : Option (List (List Char)) := none
  filter_concat : Option (List Char) := none
deriving DecidableEq, Repr

/-- From the source (CreateFilterSchema): create-action parameters; the
schema defaults isGlobal to false. -/
structure CreateParams where
  name : Option (List Char) := none
  title : Option (List Char) := none
  description : Option (List Char) := none
  filter : Option (List Char) := none
  filters : Option RawFilters := none
  projectId : Option Int := none
  isGlobal : Bool := false
  is_favorite : Option Bool := none
deriving DecidableEq, Repr

/-- From the source (case create): `const name = params.name || params.title`
— an absent or empty name falls back to the title (JS truthiness). -/
def resolvedName (p : CreateParams) : List Char :=
  match p.name with
  | some n => if n = [] then p.title.getD [] else n
  | none => p.title.getD []

/-- From the source (case create): one collected raw condition; the raw
field and comparator strings are passed through unchecked casts, and the
number/boolean coercion of the value only affects its later rendering,
which no claim depends on, so the raw text is kept. -/
structure RawCond where
  field : List Char
  comparator : Option (List Char)
  value : List Char
deriving DecidableEq, Repr

/-- From the source (case create): walk filter_by by index, skipping
entries whose filter_value entry is missing or empty (JS falsiness). -/
def collectConds : List (List Char) → List (List Char) → List (List Char) →
    List RawCond
  | [], _, _ => []
  | f :: fs, vs, cs =>
      let rest := collectConds fs vs.tail cs.tail
      match vs.head? with
      | none => rest
      | some v => if v = [] then rest else ⟨f, cs.head?, v⟩ :: rest

/-- The characters the builder renders for one raw condition. -/
def rawCondChars (c : RawCond) : List Char :=
  c.field ++ ' ' :: ((c.comparator.getD "undefined".data) ++ ' ' :: c.value)

/-- From the source (case create): the builder output for the collected
conditions — `or()` before each condition after the first when
filter_concat is the OR spelling, else the AND default (compare
`buildAction_join`). -/
def rawBuildString (conds : List RawCond) (concatOr : Bool) : List Char :=
  joinChars (if concatOr then " || ".data else " && ".data)
    (conds.map rawCondChars)

/-- From the source (case create): the string built from the filters
object; when one of the three arrays is absent the builder stays empty
and toString renders the empty string. -/
def createBuiltString (p : CreateParams) : List Char :=
  match p.filters with
  | none => []
  | some fl =>
      match fl.filter_by, fl.filter_value, fl.filter_comparator with
      | some fb, some fv, some fc =>
          rawBuildString (collectConds fb fv fc)
            (fl.filter_concat = some "||".data)
      | _, _, _ => []

/-- From the source (case create): the effective filter string — the
provided filter when non-empty (JS truthiness), else the built string. -/
def createFilterString (p : CreateParams) : List Char :=
  match p.filter with
  | some f => if f = [] then createBuiltString p else f
  | none => createBuiltString p

/-- From the source (registerFiltersTool, case create): reject an empty
effective filter string with a validation error; reject a duplicate name
with a validation error before storage.create; otherwise create with
`isGlobal := params.isGlobal || params.is_favorite || false`, skipping a
falsy description and an undefined projectId. -/
def createAction (p : CreateParams) (st : Storage) :
    Except ToolErr SavedFilter × Storage :=
  let nm := resolvedName p
  let fs := createFilterString p
  if fs = [] then
    (.error (.validation "No filter conditions provided".data), st)
  else
    match storageFindByName st nm with
    | some _ =>
        (.error (.validation "Filter with name already exists".data), st)
    | none =>
        let pair := storageCreate st
          { id := []
            name := nm
            filter := fs
            isGlobal := p.isGlobal || p.is_favorite.getD false
            description := match p.description with
              | some d => if d = [] then none else some d
              | none => none
            projectId := p.projectId }
        (.ok pair.1, pair.2)

/-- From the source (case get): storage lookup by id; a missing id raises
MCPError NOT_FOUND immediately. -/
def getAction (i : List Char) (st : Storage) : Except ToolErr SavedFilter :=
  match storageGet st i with
  | none => .error (.notFound "Filter with id not found".data)
  | some f => .ok f

/-- From the source (case delete): lookup first — a missing id raises
NOT_FOUND and storage.delete is never reached; otherwise delete. -/
def deleteAction (i : List Char) (st : Storage) :
    Except ToolErr SavedFilter × Storage :=
  match storageGet st i with
  | none => (.error (.notFound "Filter with id not found".data), st)
  | some f => (.ok f, storageDelete st i)

/-- From the source (UpdateFilterSchema): update-action parameters. -/
structure UpdateParams where
  id : List Char
  name : Option (List Char) := none
  description : Option (List Char) := none
  filter : Option (List Char) := none
  projectId : Option Int := none
  isGlobal : Option Bool := none
deriving DecidableEq, Repr

/-- From the source (case update): the duplicate-name check runs only for
a truthy new name and trips only when the record found under that name
has a different id. -/
def updateDupCheck (p : UpdateParams) (st : Storage) : Bool :=
  match p.name with
  | none => false
  | some nm =>
      if nm = [] then false
      else
        match storageFindByName st nm with
        | some ex => ex.id != p.id
        | none => false

/-- From the source (case update): reject on the duplicate-name check,
else storage.update applies the provided fields. -/
def updateAction (p : UpdateParams) (st : Storage) :
    Except ToolErr SavedFilter × Storage :=
  if updateDupCheck p st then
    (.error (.validation "Filter with name already exists".data), st)
  else
    match storageUpdate st p.id
        ⟨p.name, p.description, p.filter, p.projectId, p.isGlobal⟩ with
    | .error e => (.error e, st)
    | .ok pair => (.ok pair.1, pair.2)

theorem find?_isSome_of_mem {α : Type} (l : List α) (p : α → Bool) (a : α)
    (ha : a ∈ l) (hp : p a = true) : ∃ b, l.find? p = some b := by
  induction l with
  | nil => cases ha
  | cons x xs ih =>
      by_cases hx : p x = true
      · exact ⟨x, by simp [List.find?_cons_of_pos _ hx]⟩
      · cases ha with
        | head => exact absurd hp hx
        | tail _ hmem =>
            obtain ⟨b, hb⟩ := ih hmem
            exact ⟨b, by
              rw [List.find?_cons_of_neg _ (by simpa using hx)]
              exact hb⟩

/-- Claim C6: a create request whose resolved name already exists in
storage fails with a caller-facing validation-class error, and
storage.create is never invoked — the storage is returned unchanged. -/
theorem create_duplicate_rejected (p : CreateParams) (st : Storage)
    (ex : SavedFilter)
    (hex : storageFindByName st (resolvedName p) = some ex) :
    (∃ m, (createAction p st).1 = .error (.validation m)) ∧
      (createAction p st).2 = st := by
  by_cases hfs : createFilterString p = []
  · simp [createAction, hfs]
  · simp [createAction, hfs, hex]

/-- Witness for C6: creating a second filter named alpha is rejected and
the single stored record survives unchanged. -/
theorem create_duplicate_rejected_witness :
    (∃ m,
        (createAction
            { name := some "alpha".data, filter := some "done = true".data }
            [⟨"0".data, "alpha".data, none, "done = false".data, none, false⟩]).1 =
          .error (.validation m)) ∧
      (createAction
          { name := some "alpha".data, filter := some "done = true".data }
          [⟨"0".data, "alpha".data, none, "done = false".data, none, false⟩]).2 =
        [⟨"0".data, "alpha".data, none, "done = false".data, none, false⟩] :=
  create_duplicate_rejected _ _
    ⟨"0".data, "alpha".data, none, "done = false".data, none, false⟩ (by decide)

/-- Claim C9: when is_favorite is true and isGlobal is false (its schema
default when absent), the created filter is stored with isGlobal = true —
the favorite flag is folded in by logical or. -/
theorem create_favorite_global (p : CreateParams) (st : Storage)
    (hf : p.is_favorite = some true) (hg : p.isGlobal = false)
    (hfs : createFilterString p ≠ [])
    (hnm : storageFindByName st (resolvedName p) = none) :
    ∃ f st2, createAction p st = (.ok f, st2) ∧ f.isGlobal = true := by
  simp only [createAction, hnm, if_neg hfs]
  refine ⟨_, _, rfl, ?_⟩
  simp [storageCreate, hf, hg]

/-- Witness for C9: a favorite-only create stores a global filter. -/
theorem create_favorite_global_witness :
    ∃ f st2,
      createAction
          { name := some "beta".data, filter := some "done = true".data,
            is_favorite := some true }
          [] = (.ok f, st2) ∧
        f.isGlobal = true :=
  create_favorite_global _ [] rfl rfl (by decide) rfl

/-- Claim C7: the get and delete actions surface NOT_FOUND immediately
when the id is absent from storage, with no fallback; on that path
storage.delete is never invoked, so the storage is unchanged on error. -/
theorem get_delete_notFound (i : List Char) (st : Storage)
    (h : storageGet st i = none) :
    getAction i st = .error (.notFound "Filter with id not found".data) ∧
      deleteAction i st =
        (.error (.notFound "Filter with id not found".data), st) := by
  constructor <;> simp [getAction, deleteAction, h]

/-- Witness for C7 on an empty storage. -/
theorem get_delete_notFound_witness :
    getAction "7".data [] =
        .error (.notFound "Filter with id not found".data) ∧
      deleteAction "7".data [] =
        (.error (.notFound "Filter with id not found".data), ([] : Storage)) :=
  get_delete_notFound "7".data [] rfl

/-- Claim C10: the update action raises the duplicate-name error only
when the record found under the requested name has a different id; when
the name belongs to the record being updated, the action proceeds to
storage.update and succeeds without error. -/
theorem update_duplicate_only_other_id (p : UpdateParams) (st : Storage)
    (nm : List Char) (ex : SavedFilter)
    (hnm : p.name = some nm) (hex : storageFindByName st nm = some ex) :
    (ex.id = p.id →
      ∃ pair, storageUpdate st p.id
          ⟨p.name, p.description, p.filter, p.projectId, p.isGlobal⟩ =
            .ok pair ∧
        updateAction p st = (.ok pair.1, pair.2)) ∧
    (ex.id ≠ p.id → nm ≠ [] →
      updateAction p st =
        (.error (.validation "Filter with name already exists".data), st)) := by
  constructor
  · intro hid
    have hmem : ex ∈ st := List.mem_of_find?_eq_some hex
    obtain ⟨g, hg⟩ :=
      find?_isSome_of_mem st (fun f => f.id == p.id) ex hmem
        (by rw [← hid]; simp)
    have hup : storageUpdate st p.id
        ⟨p.name, p.description, p.filter, p.projectId, p.isGlobal⟩ =
          .ok (applyUpdate
              ⟨p.name, p.description, p.filter, p.projectId, p.isGlobal⟩ g,
            st.map (fun f => if f.id == p.id then
              applyUpdate
                ⟨p.name, p.description, p.filter, p.projectId, p.isGlobal⟩ g
              else f)) := by
      simp only [storageUpdate, storageGet, hg]
    refine ⟨_, hup, ?_⟩
    have hdup : updateDupCheck p st = false := by
      simp only [updateDupCheck, hnm]
      by_cases hz : nm = []
      · simp [hz]
      · simp [if_neg hz, hex, hid]
    rw [updateAction, hdup]
    simp only [Bool.false_eq_true, if_false, hup]
  · intro hid hne
    have hdup : updateDupCheck p st = true := by
      simp only [updateDupCheck, hnm]
      rw [if_neg hne, hex]
      simpa using hid
    rw [updateAction, hdup]
    simp

/-- Witness for C10: renaming a filter to its own current name proceeds
to storage.update and succeeds. -/
theorem update_duplicate_only_other_id_witness :
    ∃ pair, storageUpdate
        [⟨"1".data, "alpha".data, none, "done = true".data, none, false⟩]
        "1".data
        ⟨some "alpha".data, none, none, none, none⟩ = .ok pair ∧
      updateAction ⟨"1".data, some "alpha".data, none, none, none, none⟩
          [⟨"1".data, "alpha".data, none, "done = true".data, none, false⟩] =
        (.ok pair.1, pair.2) :=
  (update_duplicate_only_other_id
      ⟨"1".data, some "alpha".data, none, none, none, none⟩
      [⟨"1".data, "alpha".data, none, "done = true".data, none, false⟩]
      "alpha".data
      ⟨"1".data, "alpha".data, none, "done = true".data, none, false⟩
      rfl (by decide)).1 rfl

/-- Counterexample to C4 as stated: the build action on an empty
conditions list returns a success response carrying the empty filter
string — no caller-level rejection happens on the build path. -/
theorem build_empty_not_rejected :
    buildAction [] false = .ok ⟨[], true, []⟩ := rfl

/-- Claim C4 (amended): a builder holding zero conditions serializes to
the empty string; the create action rejects an empty effective filter
string with a caller-level validation error before any storage use; the
build action, however, returns the empty filter string in a success
response without rejecting it. -/
theorem empty_filter_handling :
    FilterBuilder.toStringChars {} = [] ∧
      (∀ (p : CreateParams) (st : Storage), createFilterString p = [] →
        createAction p st =
          (.error (.validation "No filter conditions provided".data), st)) ∧
      (∀ grpOr, buildAction [] grpOr = .ok ⟨[], true, []⟩) := by
  refine ⟨rfl, ?_, ?_⟩
  · intro p st h
    simp [createAction, h]
  · intro grpOr
    rfl

/-- Witness for C4 (amended) at the empty create request and storage. -/
theorem empty_filter_handling_witness :
    createAction {} [] =
      (.error (.validation "No filter conditions provided".data),
        ([] : Storage)) :=
  empty_filter_handling.2.1 {} [] rfl

/-! ## Validator, modelled from the spec (section 4.2) -/

/-- Modelled from the spec: the validation outcome. -/
structure ValidationResult where
  valid : Bool
  errors : List (List Char)
  warnings : List (List Char)
deriving DecidableEq, Repr

/-- Modelled from the spec: value-kind compatibility with coercion — a
string coerces to boolean when it spells one and to number when numeric;
dates are ISO strings; id-array fields take array values; anything else
is a blocking error (section 4.2). -/
def valueIssue (k : FieldKind) (v : FilterValue) : List (List Char) :=
  match k, v with
  | .kBool, .bool _ => []
  | .kBool, .str s =>
      if s = "true".data ∨ s = "false".data then []
      else ["non-boolean value for boolean field".data]
  | .kBool, _ => ["non-boolean value for boolean field".data]
  | .kNumber, .num _ => []
  | .kNumber, .str s =>
      if isNumericChars s then []
      else ["non-numeric value for numeric field".data]
  | .kNumber, _ => ["non-numeric value for numeric field".data]
  | .kDate, .str _ => []
  | .kDate, _ => ["non-date value for date field".data]
  | .kString, .str _ => []
  | .kString, .num _ => []
  | .kString, .bool _ => []
  | .kString, .arr _ => ["array value for string field".data]
  | .kIdArray, .arr _ => []
  | .kIdArray, _ => ["non-array value for array field".data]

/-- Modelled from the spec: operator/field-kind compatibility — equality
for all kinds; ordering only for number and date kinds; like only for the
string kind; in and not in meant for id-array fields and elsewhere
downgraded to a warning suggesting equality (section 4.2). -/
def conditionIssues (c : FilterCondition) : List (List Char) × List (List Char) :=
  let k := c.field.kind
  let opPart : List (List Char) × List (List Char) :=
    match c.operator, k with
    | .eq, _ => ([], [])
    | .ne, _ => ([], [])
    | .gt, .kNumber => ([], [])
    | .gt, .kDate => ([], [])
    | .gt, _ => (["ordering operator on non-ordered field".data], [])
    | .ge, .kNumber => ([], [])
    | .ge, .kDate => ([], [])
    | .ge, _ => (["ordering operator on non-ordered field".data], [])
    | .lt, .kNumber => ([], [])
    | .lt, .kDate => ([], [])
    | .lt, _ => (["ordering operator on non-ordered field".data], [])
    | .le, .kNumber => ([], [])
    | .le, .kDate => ([], [])
    | .le, _ => (["ordering operator on non-ordered field".data], [])
    | .like, .kString => ([], [])
    | .like, _ => (["like on non-string field".data], [])
    | .inOp, .kIdArray => ([], [])
    | .inOp, _ =>
        ([], ["membership operator on non-array field, consider equality".data])
    | .notIn, .kIdArray => ([], [])
    | .notIn, _ =>
        ([], ["membership operator on non-array field, consider equality".data])
  (opPart.1 ++ valueIssue k c.value, opPart.2)

/-- The combinators of an expression. -/
def exprCombinators : FilterExpression → List Combinator
  | .cond _ => []
  | .binary op l r => exprCombinators l ++ op :: exprCombinators r

/-- The leaf conditions of an expression. -/
def exprConditions : FilterExpression → List FilterCondition
  | .cond c => [c]
  | .binary _ l r => exprConditions l ++ exprConditions r

/-- Modelled from the spec: `validateFilterExpression` — per-condition
errors (blocking) and warnings (advisory), plus a warning when AND and OR
are mixed in one chain; valid iff there are no errors (sections 4.1-4.2). -/
def validateFilterExpression (e : FilterExpression) : ValidationResult :=
  let issues := (exprConditions e).map conditionIssues
  let errs := (issues.map Prod.fst).flatten
  let warns := (issues.map Prod.snd).flatten
  let mixed :=
    (exprCombinators e).contains .and && (exprCombinators e).contains .or
  let warns2 :=
    if mixed then warns ++ ["mixed combinators without grouping".data]
    else warns
  ⟨errs.isEmpty, errs, warns2⟩

/-- Human-readable message of a parse error (the code surfaces
parseResult.error?.message). -/
def parseErrMessage : ParseErr → List Char
  | .unexpectedToken f => "unexpected token ".data ++ f
  | .unterminatedLiteral => "unterminated literal".data
  | .unknownField f => "unknown field ".data ++ f
  | .unknownOperator f => "unknown operator ".data ++ f
  | .emptyExpression => "empty expression".data

/-- From the source (case validate): the response payload. -/
structure ValidateResponse where
  valid : Bool
  warnings : List (List Char)
  errors : List (List Char)
  filter : List Char
deriving DecidableEq, Repr

/-- From the source (registerFiltersTool, case validate): parse the
string; a parse failure is thrown as a validation error carrying the
parser's message; otherwise return the validator's result together with
the echoed filter string. -/
def validateAction (filter : List Char) : Except ToolErr ValidateResponse :=
  match parseChars filter with
  | .error e =>
      .error (.validation ("Invalid filter: ".data ++ parseErrMessage e))
  | .ok expr =>
      let vr := validateFilterExpression expr
      .ok ⟨vr.valid, vr.warnings, vr.errors, filter⟩

/-- Claim C8: the validate action maps a filter string to the validator's
valid/errors/warnings result whenever the string parses (warnings are
returned in a success response, hence non-blocking), and surfaces a parse
failure directly as a validation-class error — never as a partial
result. -/
theorem validateAction_spec (s : List Char) :
    (∀ e, parseChars s = .ok e →
      validateAction s =
        .ok ⟨(validateFilterExpression e).valid,
          (validateFilterExpression e).warnings,
          (validateFilterExpression e).errors, s⟩) ∧
    (∀ err, parseChars s = .error err →
      validateAction s =
        .error (.validation ("Invalid filter: ".data ++ parseErrMessage err))) := by
  constructor <;> intro x h <;> simp [validateAction, h]

/-- Witness for C8 on a parsing filter string. -/
theorem validateAction_spec_witness :
    validateAction "priority >= 3".data =
      .ok ⟨(validateFilterExpression (.cond ⟨.priority, .ge, .num 3⟩)).valid,
        (validateFilterExpression (.cond ⟨.priority, .ge, .num 3⟩)).warnings,
        (validateFilterExpression (.cond ⟨.priority, .ge, .num 3⟩)).errors,
        "priority >= 3".data⟩ :=
  (validateAction_spec "priority >= 3".data).1 _ (by decide)

/-! ## Task filtering orchestrator, modelled from the spec (section 4.5) -/

/-- Modelled from the spec: the remote behaviour visible to one
orchestration run — the delegated filtering call and the broad fetch used
by the fallback; each either returns tasks or fails. -/
structure Remote where
  filtered : List Char → Except (List Char) (List VTask)
  fetchAll : Except (List Char) (List VTask)

/-- From the source (tasks tool): the listing arguments the orchestrator
consumes. -/
structure ListArgs where
  filter : Option (List Char) := none
  filterId : Option (List Char) := none
  page : Option Nat := none
  perPage : Option Nat := none
  sort : Option (List Char) := none
deriving DecidableEq, Repr

/-- Modelled from the spec: result metadata (section 3). -/
structure FilteringMeta where
  serverSideFilteringUsed : Bool
  serverSideFilteringAttempted : Bool
  count : Nat
deriving DecidableEq, Repr

/-- Modelled from the spec: the orchestrator result shape. -/
structure FilteringResult where
  tasks : List VTask
  metadata : FilteringMeta
deriving DecidableEq, Repr

/-- Orchestration failures (sections 4.5 and 7). -/
inductive OrchErr where
  | notFound (msg : List Char)
  | parse (e : ParseErr)
  | orchestration (msg : List Char)
deriving DecidableEq, Repr

/-- Modelled from the spec: local pagination of the fallback subset —
page defaults to 1 and an absent perPage returns everything; the spec
fixes no sort comparator, so the fetched order is kept. -/
def applyPagination (args : ListArgs) (ts : List VTask) : List VTask :=
  match args.perPage with
  | none => ts
  | some pp => (ts.drop ((args.page.getD 1 - 1) * pp)).take pp

/-- Modelled from the spec (section 4.5): resolve the saved filter first
(a missing id is NotFound with no fallback), let an inline filter string
take precedence, parse it (a parse error surfaces without fallback),
attempt the remote delegated call exactly once, and on its failure fetch
broadly and evaluate the parsed AST per task locally, paginating the
filtered subset. -/
def executeTaskFiltering (args : ListArgs) (st : Storage) (remote : Remote) :
    Except OrchErr FilteringResult := do
  let saved ← match args.filterId with
    | none => pure none
    | some fid =>
        match storageGet st fid with
        | none => throw (OrchErr.notFound "Filter with id not found".data)
        | some f => pure (some f.filter)
  let eff := match args.filter with
    | some s => some s
    | none => saved
  match eff with
  | none =>
      match remote.fetchAll with
      | .error m => throw (.orchestration m)
      | .ok ts =>
          let page := applyPagination args ts
          pure ⟨page, ⟨false, false, page.length⟩⟩
  | some s =>
      match parseChars s with
      | .error e => throw (.parse e)
      | .ok ast =>
          match remote.filtered s with
          | .ok ts => pure ⟨ts, ⟨true, true, ts.length⟩⟩
          | .error _ =>
              match remote.fetchAll with
              | .error m => throw (.orchestration m)
              | .ok allTs =>
                  let picked :=
                    applyPagination args (allTs.filter (fun t => evaluate ast t))
                  pure ⟨picked, ⟨false, true, picked.length⟩⟩

/-- Claim C1 (amended): when the effective filter string parses, the
saved-filter lookup (if any) succeeds, and the remote delegated call
fails, the result reports serverSideFilteringUsed = false and
serverSideFilteringAttempted = true, and its tasks are the local
pagination of exactly those locally fetched tasks on which the evaluator
accepts the parsed AST — equal to that whole set whenever the request
carries no pagination parameters. -/
theorem orchestrator_fallback (args : ListArgs) (st : Storage)
    (remote : Remote) (s : List Char) (ast : FilterExpression)
    (ts : List VTask) (em : List Char)
    (hfid : ∀ fid, args.filterId = some fid → (storageGet st fid).isSome)
    (hf : args.filter = some s)
    (hp : parseChars s = .ok ast)
    (hr : remote.filtered s = .error em)
    (ha : remote.fetchAll = .ok ts) :
    executeTaskFiltering args st remote =
      .ok ⟨applyPagination args (ts.filter (fun t => evaluate ast t)),
        ⟨false, true,
          (applyPagination args (ts.filter (fun t => evaluate ast t))).length⟩⟩ ∧
      (args.perPage = none →
        applyPagination args (ts.filter (fun t => evaluate ast t)) =
          ts.filter (fun t => evaluate ast t)) := by
  constructor
  · match hx : args.filterId with
    | none =>
        simp [executeTaskFiltering, hx, hf, hp, hr, ha]
        rfl
    | some fid =>
        have := hfid fid hx
        match hg : storageGet st fid with
        | none => rw [hg] at this; cases this
        | some f =>
            simp [executeTaskFiltering, hx, hg, hf, hp, hr, ha]
            rfl
  · intro hpp
    simp [applyPagination, hpp]

/-- A remote whose delegated filtering always fails and whose broad fetch
returns two open tasks, exercising the fallback path. -/
def remoteBoom : Remote :=
  ⟨fun _ => .error "boom".data,
    .ok [{ done := some false }, { done := some false, priority := some 1 }]⟩

/-- Witness for C1 (amended): the fallback with no pagination returns
exactly the evaluator-matching tasks with the two metadata flags set as
specified. -/
theorem orchestrator_fallback_witness :
    executeTaskFiltering { filter := some "done = false".data } [] remoteBoom =
      .ok ⟨[{ done := some false }, { done := some false, priority := some 1 }],
        ⟨false, true, 2⟩⟩ := by
  have h := orchestrator_fallback { filter := some "done = false".data } []
    remoteBoom "done = false".data (.cond ⟨.done, .eq, .bool false⟩)
    [{ done := some false }, { done := some false, priority := some 1 }]
    "boom".data (by intro fid hc; cases hc) rfl (by decide) rfl rfl
  exact h.1.trans (by decide)

/-- Counterexample to C1 as stated: with perPage = 1 the fallback result
carries only the first page of the matching tasks, not the whole set of
evaluator-matching tasks. -/
theorem orchestrator_fallback_paginates :
    executeTaskFiltering
        { filter := some "done = false".data, perPage := some 1 } [] remoteBoom =
      .ok ⟨[{ done := some false }], ⟨false, true, 1⟩⟩ ∧
    ([{ done := some false }, { done := some false, priority := some 1 }] :
        List VTask).filter
          (fun t => evaluate (.cond ⟨.done, .eq, .bool false⟩) t) ≠
      [{ done := some false }] := by
  constructor
  · decide
  · decide

/-! ## Round-trip support: decimal literals -/

theorem digitChar_isDigit (d : Nat) (h : d < 10) :
    (Nat.digitChar d).isDigit = true := by
  interval_cases d <;> decide

theorem digitChar_toNat (d : Nat) (h : d < 10) :
    (Nat.digitChar d).toNat - 48 = d := by
  interval_cases d <;> decide

theorem natCharsAux_digits (fuel : Nat) :
    ∀ n, ∀ c ∈ natCharsAux fuel n, c.isDigit = true := by
  induction fuel with
  | zero => intro n c hc; cases hc
  | succ fuel ih =>
      intro n c hc
      rw [natCharsAux] at hc
      by_cases hz : n = 0
      · rw [if_pos hz] at hc; cases hc
      · rw [if_neg hz] at hc
        rcases List.mem_append.mp hc with h1 | h2
        · exact ih _ c h1
        · rcases List.mem_singleton.mp h2 with rfl
          exact digitChar_isDigit _ (Nat.mod_lt n (by omega))

theorem parseNat_step (acc : Nat) (l : List Char) (d : Char) :
    (l ++ [d]).foldl (fun a c => a * 10 + (c.toNat - 48)) acc =
      (l.foldl (fun a c => a * 10 + (c.toNat - 48)) acc) * 10 + (d.toNat - 48) := by
  simp [List.foldl_append]

theorem natCharsAux_correct (fuel : Nat) :
    ∀ n acc, n ≤ fuel →
      (natCharsAux fuel n).foldl (fun a c => a * 10 + (c.toNat - 48)) acc =
        acc * 10 ^ (natCharsAux fuel n).length + n := by
  induction fuel with
  | zero =>
      intro n acc hn
      interval_cases n
      simp [natCharsAux]
  | succ fuel ih =>
      intro n acc hn
      by_cases hz : n = 0
      · subst hz; simp [natCharsAux]
      · rw [natCharsAux, if_neg hz, parseNat_step]
        have hle : n / 10 ≤ fuel := by
          have h1 : n / 10 < n := Nat.div_lt_self (Nat.pos_of_ne_zero hz) (by omega)
          omega
        rw [ih (n / 10) acc hle,
          digitChar_toNat _ (Nat.mod_lt n (by omega)),
          List.length_append, List.length_singleton]
        calc (acc * 10 ^ (natCharsAux fuel (n / 10)).length + n / 10) * 10 + n % 10
            = acc * 10 ^ ((natCharsAux fuel (n / 10)).length + 1) +
                (10 * (n / 10) + n % 10) := by ring
          _ = acc * 10 ^ ((natCharsAux fuel (n / 10)).length + 1) + n := by
              rw [Nat.div_add_mod]

theorem parseNatChars_natChars (n : Nat) : parseNatChars (natChars n) = n := by
  rw [natChars]
  by_cases hz : n = 0
  · subst hz; decide
  · rw [if_neg hz]
    have h := natCharsAux_correct (n + 1) n 0 (by omega)
    simpa [parseNatChars] using h

theorem natCharsAux_ne_nil (fuel n : Nat) (h1 : n ≤ fuel) (h2 : n ≠ 0) :
    natCharsAux fuel n ≠ [] := by
  cases fuel with
  | zero => omega
  | succ fuel =>
      rw [natCharsAux, if_neg h2]
      simp

theorem natChars_digits (n : Nat) : ∀ c ∈ natChars n, c.isDigit = true := by
  rw [natChars]
  by_cases hz : n = 0
  · rw [if_pos hz]
    intro c hc
    rcases List.mem_singleton.mp hc with rfl
    decide
  · rw [if_neg hz]
    exact natCharsAux_digits _ _

theorem natChars_ne_nil (n : Nat) : natChars n ≠ [] := by
  rw [natChars]
  by_cases hz : n = 0
  · simp [hz]
  · rw [if_neg hz]
    exact natCharsAux_ne_nil _ _ (by omega) hz

theorem isNumeric_natChars (n : Nat) : isNumericChars (natChars n) = true := by
  have hd := natChars_digits n
  cases hx : natChars n with
  | nil => exact absurd hx (natChars_ne_nil n)
  | cons c rest =>
      have hc : c.isDigit = true := by
        refine hd c ?_
        rw [hx]
        exact List.mem_cons_self c rest
      have hcm : c ≠ '-' := by
        intro h
        rw [h] at hc
        cases hc
      rw [isNumericChars, if_neg hcm]
      have : ∀ x ∈ c :: rest, x.isDigit = true := by
        intro x hxm
        refine hd x ?_
        rw [hx]
        exact hxm
      simpa [isDigits, List.all_eq_true] using this

theorem parseIntChars_intChars (n : Int) : parseIntChars (intChars n) = n := by
  rw [intChars]
  by_cases hneg : n < 0
  · rw [if_pos hneg, parseIntChars, if_pos rfl, parseNatChars_natChars]
    omega
  · rw [if_neg hneg]
    have hd := natChars_digits n.toNat
    cases hx : natChars n.toNat with
    | nil => exact absurd hx (natChars_ne_nil _)
    | cons c rest =>
        have hc : c.isDigit = true := by
          refine hd c ?_
          rw [hx]
          exact List.mem_cons_self c rest
        have hcm : c ≠ '-' := by
          intro h
          rw [h] at hc
          cases hc
        rw [parseIntChars, if_neg hcm, ← hx, parseNatChars_natChars]
        omega

theorem isNumeric_intChars (n : Int) : isNumericChars (intChars n) = true := by
  rw [intChars]
  by_cases hneg : n < 0
  · rw [if_pos hneg, isNumericChars, if_pos rfl]
    have h1 : (natChars (-n).toNat).isEmpty = false := by
      cases hx : natChars (-n).toNat with
      | nil => exact absurd hx (natChars_ne_nil _)
      | cons c rest => rfl
    have h2 : isDigits (natChars (-n).toNat) = true := by
      simpa [isDigits, List.all_eq_true] using natChars_digits (-n).toNat
    rw [h1, h2]
    rfl
  · rw [if_neg hneg]
    exact isNumeric_natChars _

theorem intChars_chars (n : Int) : ∀ c ∈ intChars n, c = '-' ∨ c.isDigit = true := by
  rw [intChars]
  by_cases hneg : n < 0
  · rw [if_pos hneg]
    intro c hc
    rcases List.mem_cons.mp hc with rfl | hc2
    · exact Or.inl rfl
    · exact Or.inr (natChars_digits _ c hc2)
  · rw [if_neg hneg]
    intro c hc
    exact Or.inr (natChars_digits _ c hc)

theorem intChars_ne_nil (n : Int) : intChars n ≠ [] := by
  rw [intChars]
  by_cases hneg : n < 0
  · rw [if_pos hneg]
    simp
  · rw [if_neg hneg]
    exact natChars_ne_nil _

/-! ## Round-trip support: lexer -/

/-- A word the renderer can emit and the lexer reads back verbatim. -/
abbrev goodWord (w : Word) : Prop :=
  w.quoted = true ∨
    (w.text ≠ [] ∧ ' ' ∉ w.text ∧ w.text.head? ≠ some '"')

theorem lexAux_escape (t : List Char) :
    ∀ acc rest, lexAux (escapeChars t ++ ('"' :: rest)) (.quote acc) =
      (fun ws => ⟨true, acc.reverse ++ t⟩ :: ws) <$> lexAux rest .start := by
  induction t with
  | nil =>
      intro acc rest
      show lexAux ('"' :: rest) (.quote acc) = _
      rw [lexAux.eq_def]
      simp
  | cons c t ih =>
      intro acc rest
      by_cases hs : c = '"' ∨ c = '\\'
      · rw [escapeChars, if_pos hs, List.cons_append, List.cons_append]
        show lexAux ('\\' :: (c :: (escapeChars t ++ ('"' :: rest)))) (.quote acc) = _
        rw [show lexAux ('\\' :: (c :: (escapeChars t ++ ('"' :: rest))))
            (.quote acc) =
            lexAux (escapeChars t ++ ('"' :: rest)) (.quote (c :: acc)) from by
          simp [lexAux]]
        rw [ih (c :: acc) rest]
        simp
      · push_neg at hs
        rw [escapeChars, if_neg (by tauto), List.cons_append]
        rw [show lexAux (c :: (escapeChars t ++ ('"' :: rest))) (.quote acc) =
            lexAux (escapeChars t ++ ('"' :: rest)) (.quote (c :: acc)) from by
          rw [lexAux.eq_def]
          simp [hs.1, hs.2]]
        rw [ih (c :: acc) rest]
        simp

theorem lexAux_bare_run (t : List Char) :
    ∀ acc rest, (∀ c ∈ t, c ≠ ' ') →
      lexAux (t ++ rest) (.bare acc) = lexAux rest (.bare (t.reverse ++ acc)) := by
  induction t with
  | nil => intro acc rest h; simp
  | cons c t ih =>
      intro acc rest h
      have hc : c ≠ ' ' := h c (List.mem_cons_self c t)
      rw [List.cons_append]
      rw [show lexAux (c :: (t ++ rest)) (.bare acc) =
          lexAux (t ++ rest) (.bare (c :: acc)) from by simp [lexAux, hc]]
      rw [ih (c :: acc) rest (fun x hx => h x (List.mem_cons_of_mem _ hx))]
      simp

theorem lexAux_word (w : Word) (rest : List Char) (hw : goodWord w)
    (hrest : rest = [] ∨ ∃ r2, rest = ' ' :: r2) :
    lexAux (renderWord w ++ rest) .start =
      (fun ws => w :: ws) <$> lexAux rest .start := by
  obtain ⟨q, t⟩ := w
  cases q with
  | true =>
      rw [show renderWord ⟨true, t⟩ = '"' :: (escapeChars t ++ ['"']) from rfl]
      rw [List.cons_append, List.append_assoc, List.singleton_append]
      rw [show lexAux ('"' :: (escapeChars t ++ ('"' :: rest))) .start =
          lexAux (escapeChars t ++ ('"' :: rest)) (.quote []) from by
        simp [lexAux]]
      rw [lexAux_escape t [] rest]
      rfl
  | false =>
      rcases hw with hq | ⟨hne, hsp, hhd⟩
      · cases hq
      · cases t with
        | nil => exact absurd rfl hne
        | cons c t2 =>
            have hc1 : c ≠ ' ' := by
              intro h
              exact hsp (h ▸ List.mem_cons_self c t2)
            have hc2 : c ≠ '"' := by
              intro h
              exact hhd (by simp [h])
            rw [show renderWord ⟨false, c :: t2⟩ = c :: t2 from rfl,
              List.cons_append]
            rw [show lexAux (c :: (t2 ++ rest)) .start =
                lexAux (t2 ++ rest) (.bare [c]) from by simp [lexAux, hc1, hc2]]
            rw [lexAux_bare_run t2 [c] rest
              (fun x hx => fun he => hsp (he ▸ List.mem_cons_of_mem _ hx))]
            rcases hrest with rfl | ⟨r2, rfl⟩
            · rw [show lexAux ([] : List Char) (.bare (t2.reverse ++ [c])) =
                  .ok [⟨false, (t2.reverse ++ [c]).reverse⟩] from rfl]
              simp
              rfl
            · rw [show lexAux (' ' :: r2) (.bare (t2.reverse ++ [c])) =
                  (fun ws => ⟨false, (t2.reverse ++ [c]).reverse⟩ :: ws) <$>
                    lexAux r2 .start from by simp [lexAux]]
              rw [show lexAux (' ' :: r2) LexMode.start =
                  lexAux r2 .start from by simp [lexAux]]
              simp

theorem lexAux_words (ws : List Word) (hws : ∀ w ∈ ws, goodWord w) :
    lexAux (renderWords ws) .start = .ok ws := by
  induction ws with
  | nil => rfl
  | cons w ws ih =>
      cases ws with
      | nil =>
          have h := lexAux_word w [] (hws w (by simp)) (Or.inl rfl)
          rw [show renderWords [w] = renderWord w from rfl,
            show renderWord w = renderWord w ++ [] from (List.append_nil _).symm,
            h]
          rfl
      | cons w2 ws2 =>
          rw [renderWords_cons w (w2 :: ws2) (by simp)]
          have h := lexAux_word w (' ' :: renderWords (w2 :: ws2))
            (hws w (by simp)) (Or.inr ⟨_, rfl⟩)
          rw [h]
          rw [show lexAux (' ' :: renderWords (w2 :: ws2)) LexMode.start =
              lexAux (renderWords (w2 :: ws2)) .start from by simp [lexAux]]
          rw [ih (fun x hx => hws x (List.mem_cons_of_mem _ hx))]
          rfl

/-! ## Round-trip support: values -/

/-- An array element whose bare rendering re-parses as itself: numbers
always do; strings must be non-empty, contain no space or comma, and not
re-classify as numeric. -/
def plainElem : ArrayElem → Bool
  | .num _ => true
  | .str s => decide (s ≠ [] ∧ ' ' ∉ s ∧ ',' ∉ s) && !isNumericChars s

/-- A value whose canonical word re-parses as itself: scalars always do
(strings get quoted when bare rendering would be unsafe); arrays must be
non-empty with plain elements. -/
def valueSafe : FilterValue → Bool
  | .str _ => true
  | .num _ => true
  | .bool _ => true
  | .arr es => !es.isEmpty && es.all plainElem

/-- A condition whose value is safe for the round trip. -/
def condSafe (c : FilterCondition) : Bool := valueSafe c.value

theorem bareSafe_spec (s : List Char) (h : bareSafe s = true) :
    s ≠ [] ∧ ' ' ∉ s ∧ s.head? ≠ some '"' ∧ s.head? ≠ some '(' ∧
      s ≠ "&&".data ∧ s ≠ "||".data ∧ s ≠ "true".data ∧ s ≠ "false".data ∧
      isNumericChars s = false := by
  rw [bareSafe, Bool.and_eq_true, decide_eq_true_eq] at h
  obtain ⟨⟨h1, h2, h3, h4, h5, h6, h7, h8⟩, h9⟩ := h
  exact ⟨h1, h2, h3, h4, h5, h6, h7, h8, by simpa using h9⟩

theorem head?_mem_chars (l : List Char) (a : Char) (h : l.head? = some a) :
    a ∈ l := by
  cases l with
  | nil => cases h
  | cons x xs =>
      rw [List.head?_cons, Option.some_inj] at h
      exact h ▸ List.mem_cons_self x xs

theorem intChars_not_mem (n : Int) (ch : Char) (hd : ch ≠ '-')
    (hdig : ch.isDigit = false) : ch ∉ intChars n := by
  intro hm
  rcases intChars_chars n ch hm with h | h
  · exact hd h
  · rw [h] at hdig
    cases hdig

theorem intChars_head_ne (n : Int) (ch : Char) (hd : ch ≠ '-')
    (hdig : ch.isDigit = false) : (intChars n).head? ≠ some ch := by
  intro h
  exact intChars_not_mem n ch hd hdig (head?_mem_chars _ _ h)

theorem intChars_ne_lit (n : Int) (l : List Char)
    (hl : isNumericChars l = false) : intChars n ≠ l := by
  intro h
  have h2 := isNumeric_intChars n
  rw [h, hl] at h2
  cases h2

theorem splitComma_single (x : List Char) (hx : ',' ∉ x) :
    splitComma x = [x] := by
  induction x with
  | nil => rfl
  | cons c x ih =>
      have hc : c ≠ ',' := fun h => hx (h ▸ List.mem_cons_self c x)
      have hx2 : ',' ∉ x := fun h => hx (List.mem_cons_of_mem _ h)
      simp only [splitComma, if_neg hc, ih hx2]

theorem splitComma_append (x rest : List Char) (hx : ',' ∉ x) :
    splitComma (x ++ ',' :: rest) = x :: splitComma rest := by
  induction x with
  | nil => simp [splitComma]
  | cons c x ih =>
      have hc : c ≠ ',' := fun h => hx (h ▸ List.mem_cons_self c x)
      have hx2 : ',' ∉ x := fun h => hx (List.mem_cons_of_mem _ h)
      rw [List.cons_append]
      simp only [splitComma, if_neg hc, ih hx2]

theorem splitComma_join (ls : List (List Char)) (hne : ls ≠ [])
    (h : ∀ l ∈ ls, ',' ∉ l) : splitComma (joinWith ',' ls) = ls := by
  induction ls with
  | nil => exact absurd rfl hne
  | cons x ls ih =>
      cases ls with
      | nil => exact splitComma_single x (h x (by simp))
      | cons y ys =>
          rw [show joinWith ',' (x :: y :: ys) =
              x ++ ',' :: joinWith ',' (y :: ys) from rfl]
          rw [splitComma_append x _ (h x (by simp))]
          rw [ih (by simp) (fun l hl => h l (List.mem_cons_of_mem _ hl))]

theorem plainElem_str_spec (s : List Char) (h : plainElem (.str s) = true) :
    s ≠ [] ∧ ' ' ∉ s ∧ ',' ∉ s ∧ isNumericChars s = false := by
  rw [plainElem, Bool.and_eq_true, decide_eq_true_eq] at h
  obtain ⟨⟨h1, h2, h3⟩, h4⟩ := h
  exact ⟨h1, h2, h3, by simpa using h4⟩

theorem classifyElem_elemChars (el : ArrayElem) (h : plainElem el = true) :
    classifyElem (elemChars el) = el := by
  cases el with
  | num n =>
      rw [show elemChars (.num n) = intChars n from rfl, classifyElem,
        if_pos (isNumeric_intChars n), parseIntChars_intChars]
  | str s =>
      obtain ⟨h1, h2, h3, h4⟩ := plainElem_str_spec s h
      rw [show elemChars (.str s) = s from rfl, classifyElem,
        if_neg (by simp [h4])]

theorem elemChars_no_comma (el : ArrayElem) (h : plainElem el = true) :
    ',' ∉ elemChars el := by
  cases el with
  | num n => exact intChars_not_mem n ',' (by decide) (by decide)
  | str s => exact (plainElem_str_spec s h).2.2.1

theorem elemChars_no_space (el : ArrayElem) (h : plainElem el = true) :
    ' ' ∉ elemChars el := by
  cases el with
  | num n => exact intChars_not_mem n ' ' (by decide) (by decide)
  | str s => exact (plainElem_str_spec s h).2.1

theorem joinWith_mem (sep : Char) (ls : List (List Char)) (c : Char)
    (hc : c ∈ joinWith sep ls) : c = sep ∨ ∃ l ∈ ls, c ∈ l := by
  induction ls with
  | nil => cases hc
  | cons x ls ih =>
      cases ls with
      | nil => exact Or.inr ⟨x, by simp, hc⟩
      | cons y ys =>
          rw [show joinWith sep (x :: y :: ys) =
              x ++ sep :: joinWith sep (y :: ys) from rfl] at hc
          rcases List.mem_append.mp hc with h1 | h2
          · exact Or.inr ⟨x, by simp, h1⟩
          · rcases List.mem_cons.mp h2 with rfl | h3
            · exact Or.inl rfl
            · rcases ih h3 with h4 | ⟨l, hl, hcl⟩
              · exact Or.inl h4
              · exact Or.inr ⟨l, List.mem_cons_of_mem _ hl, hcl⟩

theorem valueSafe_arr_spec (es : List ArrayElem)
    (h : valueSafe (.arr es) = true) :
    es ≠ [] ∧ ∀ el ∈ es, plainElem el = true := by
  rw [valueSafe, Bool.and_eq_true] at h
  refine ⟨?_, ?_⟩
  · intro he
    rw [he] at h
    cases h.1
  · intro el hel
    exact (List.all_eq_true.mp h.2) el hel

theorem parseValueWord_valueWord (v : FilterValue) (h : valueSafe v = true) :
    parseValueWord (valueWord v) = .ok v := by
  cases v with
  | str s =>
      by_cases hb : bareSafe s = true
      · obtain ⟨h1, h2, h3, h4, h5, h6, h7, h8, h9⟩ := bareSafe_spec s hb
        rw [show valueWord (.str s) = ⟨false, s⟩ from by
          rw [valueWord, if_pos hb]]
        rw [parseValueWord.eq_def]
        simp [h4, h7, h8, h9]
      · rw [show valueWord (.str s) = ⟨true, s⟩ from by
          rw [valueWord, if_neg hb]]
        rfl
  | num n =>
      rw [show valueWord (.num n) = ⟨false, intChars n⟩ from rfl,
        parseValueWord.eq_def]
      simp [intChars_head_ne n '(' (by decide) (by decide),
        intChars_ne_lit n "true".data (by decide),
        intChars_ne_lit n "false".data (by decide),
        isNumeric_intChars n, parseIntChars_intChars n]
  | bool b => cases b <;> rfl
  | arr es =>
      obtain ⟨hne, hall⟩ := valueSafe_arr_spec es h
      have hjoin : ∀ l ∈ es.map elemChars, ',' ∉ l := by
        intro l hl
        rcases List.mem_map.mp hl with ⟨el, hel, rfl⟩
        exact elemChars_no_comma el (hall el hel)
      have hmapne : es.map elemChars ≠ [] := by
        intro hx
        exact hne (List.map_eq_nil_iff.mp hx)
      rw [show valueWord (.arr es) =
          ⟨false, '(' :: (joinWith ',' (es.map elemChars) ++ [')'])⟩ from rfl,
        parseValueWord.eq_def]
      simp only [List.head?_cons, List.tail_cons]
      rw [if_pos trivial]
      rw [List.reverse_append, List.reverse_singleton, List.singleton_append]
      simp only [List.reverse_reverse]
      rw [splitComma_join _ hmapne hjoin, List.map_map]
      have : es.map (classifyElem ∘ elemChars) = es.map id := by
        refine List.map_congr_left ?_
        intro el hel
        exact classifyElem_elemChars el (hall el hel)
      rw [this, List.map_id]
      simp

/-! ## Round-trip support: conditions and groups -/

theorem parseField_fieldName (f : FilterField) :
    parseField (fieldName f) = .ok f := by
  cases f <;> rfl

theorem parseOpWord_opName (o : FilterOperator) (ho : o ≠ .notIn) :
    parseOpWord (opName o) = .ok o := by
  cases o
  case notIn => exact absurd rfl ho
  all_goals rfl

theorem goodWord_field (f : FilterField) : goodWord ⟨false, fieldName f⟩ := by
  cases f <;> decide

theorem goodWord_valueWord (v : FilterValue) (h : valueSafe v = true) :
    goodWord (valueWord v) := by
  cases v with
  | str s =>
      by_cases hb : bareSafe s = true
      · obtain ⟨h1, h2, h3, _⟩ := bareSafe_spec s hb
        rw [valueWord, if_pos hb]
        exact Or.inr ⟨h1, h2, h3⟩
      · rw [valueWord, if_neg hb]
        exact Or.inl rfl
  | num n =>
      exact Or.inr ⟨intChars_ne_nil n,
        intChars_not_mem n ' ' (by decide) (by decide),
        intChars_head_ne n '"' (by decide) (by decide)⟩
  | bool b => cases b <;> decide
  | arr es =>
      obtain ⟨hne, hall⟩ := valueSafe_arr_spec es h
      rw [show valueWord (.arr es) =
        ⟨false, '(' :: (joinWith ',' (es.map elemChars) ++ [')'])⟩ from rfl]
      refine Or.inr ⟨by simp, ?_, by simp⟩
      intro hm
      rcases List.mem_cons.mp hm with h1 | h2
      · exact absurd h1 (by decide)
      · rcases List.mem_append.mp h2 with h3 | h4
        · rcases joinWith_mem ',' _ ' ' h3 with h5 | ⟨l, hl, hcl⟩
          · exact absurd h5 (by decide)
          · rcases List.mem_map.mp hl with ⟨el, hel, rfl⟩
            exact elemChars_no_space el (hall el hel) hcl
        · exact absurd (List.mem_singleton.mp h4) (by decide)

theorem goodWord_cond (c : FilterCondition) (h : condSafe c = true) :
    ∀ w ∈ conditionWords c, goodWord w := by
  obtain ⟨f, o, v⟩ := c
  have hv : valueSafe v = true := h
  have hval := goodWord_valueWord v hv
  cases o <;> intro w hw <;>
    simp only [conditionWords, List.mem_cons, List.not_mem_nil, or_false] at hw <;>
    first
      | (rcases hw with rfl | rfl | rfl
         exacts [goodWord_field f, by decide, hval])
      | (rcases hw with rfl | rfl | rfl | rfl
         exacts [goodWord_field f, by decide, by decide, hval])

/-- Whether a word is a top-level combinator token. -/
def isCombW (w : Word) : Bool :=
  w == ⟨false, "&&".data⟩ || w == ⟨false, "||".data⟩

theorem isCombW_false (w : Word) (h1 : w ≠ ⟨false, "&&".data⟩)
    (h2 : w ≠ ⟨false, "||".data⟩) : isCombW w = false := by
  rw [isCombW]
  simp [h1, h2]

theorem isCombW_valueWord (v : FilterValue) :
    isCombW (valueWord v) = false := by
  cases v with
  | str s =>
      by_cases hb : bareSafe s = true
      · obtain ⟨_, _, _, _, h5, h6, _, _, _⟩ := bareSafe_spec s hb
        rw [valueWord, if_pos hb]
        exact isCombW_false _ (by simp [h5]) (by simp [h6])
      · rw [valueWord, if_neg hb]
        rfl
  | num n =>
      refine isCombW_false _ ?_ ?_ <;>
        · intro hx
          have hh := congrArg Word.text hx
          exact intChars_ne_lit n _ (by decide) hh
  | bool b => cases b <;> decide
  | arr es =>
      rw [show valueWord (.arr es) =
        ⟨false, '(' :: (joinWith ',' (es.map elemChars) ++ [')'])⟩ from rfl]
      refine isCombW_false _ ?_ ?_ <;>
        · intro hx
          have hh := congrArg (fun w => w.text.head?) hx
          simp only [List.head?_cons, Option.some.injEq] at hh
          exact absurd hh (by decide)

theorem not_comb_cond (c : FilterCondition) (h : condSafe c = true) :
    ∀ w ∈ conditionWords c, isCombW w = false := by
  obtain ⟨f, o, v⟩ := c
  have hval := isCombW_valueWord v
  have hfld : isCombW ⟨false, fieldName f⟩ = false := by cases f <;> decide
  cases o <;> intro w hw <;>
    simp only [conditionWords, List.mem_cons, List.not_mem_nil, or_false] at hw <;>
    first
      | (rcases hw with rfl | rfl | rfl
         exacts [hfld, by decide, hval])
      | (rcases hw with rfl | rfl | rfl | rfl
         exacts [hfld, by decide, by decide, hval])

theorem splitGroups_skip (g ws cur : List Word)
    (h : ∀ w ∈ g, isCombW w = false) :
    splitGroups (g ++ ws) cur = splitGroups ws (g.reverse ++ cur) := by
  induction g generalizing cur with
  | nil => simp
  | cons w g ih =>
      have hw : isCombW w = false := h w (List.mem_cons_self w g)
      have h1 : w ≠ ⟨false, "&&".data⟩ := by
        intro hx
        rw [hx] at hw
        exact absurd hw (by decide)
      have h2 : w ≠ ⟨false, "||".data⟩ := by
        intro hx
        rw [hx] at hw
        exact absurd hw (by decide)
      rw [List.cons_append]
      simp only [splitGroups, if_neg h1, if_neg h2]
      rw [ih (w :: cur) (fun x hx => h x (List.mem_cons_of_mem _ hx))]
      simp

theorem splitGroups_comb (comb : Combinator) (ws cur : List Word) :
    splitGroups (combWord comb :: ws) cur =
      (cur.reverse :: (splitGroups ws []).1, comb :: (splitGroups ws []).2) := by
  rcases hp : splitGroups ws [] with ⟨gs, cs⟩
  cases comb
  · simp [combWord, splitGroups, hp]
  · simp [combWord, splitGroups, hp]

/-- The word tail contributed by the conditions after the first one. -/
def tailWords (comb : Combinator) : List FilterCondition → List Word
  | [] => []
  | c :: cs => combWord comb :: (conditionWords c ++ tailWords comb cs)

theorem exprWords_chain (comb : Combinator) (cs : List FilterCondition) :
    ∀ e, exprWords (chainAstAux comb e cs) = exprWords e ++ tailWords comb cs := by
  induction cs with
  | nil => intro e; simp [chainAstAux, tailWords]
  | cons c cs ih =>
      intro e
      rw [show chainAstAux comb e (c :: cs) =
          chainAstAux comb (.binary comb e (.cond c)) cs from rfl, ih]
      simp [exprWords, tailWords]

theorem tailWords_good (comb : Combinator) (cs : List FilterCondition)
    (h : ∀ c ∈ cs, condSafe c = true) :
    ∀ w ∈ tailWords comb cs, goodWord w := by
  induction cs with
  | nil => intro w hw; cases hw
  | cons c cs ih =>
      intro w hw
      rw [show tailWords comb (c :: cs) =
          combWord comb :: (conditionWords c ++ tailWords comb cs) from rfl] at hw
      rcases List.mem_cons.mp hw with rfl | hw2
      · cases comb <;> decide
      · rcases List.mem_append.mp hw2 with h3 | h4
        · exact goodWord_cond c (h c (List.mem_cons_self c cs)) w h3
        · exact ih (fun x hx => h x (List.mem_cons_of_mem _ hx)) w h4

theorem splitGroups_tail (comb : Combinator) (cs : List FilterCondition)
    (h : ∀ c ∈ cs, condSafe c = true) :
    ∀ cur, splitGroups (tailWords comb cs) cur =
      (cur.reverse :: cs.map conditionWords, cs.map (fun _ => comb)) := by
  induction cs with
  | nil => intro cur; simp [tailWords, splitGroups]
  | cons c cs ih =>
      intro cur
      rw [show tailWords comb (c :: cs) =
          combWord comb :: (conditionWords c ++ tailWords comb cs) from rfl,
        splitGroups_comb comb _ cur,
        splitGroups_skip (conditionWords c) _ []
          (not_comb_cond c (h c (List.mem_cons_self c cs))),
        ih (fun x hx => h x (List.mem_cons_of_mem _ hx)) _]
      simp

/-! ## Round trip: assembly -/

theorem parseConditionWords_conditionWords (c : FilterCondition)
    (h : condSafe c = true) :
    parseConditionWords (conditionWords c) = .ok c := by
  obtain ⟨f, o, v⟩ := c
  have hv : valueSafe v = true := h
  cases o <;>
    simp [conditionWords, parseConditionWords, parseField_fieldName f,
      parseValueWord_valueWord v hv, parseOpWord, opName, Except.bind] <;>
    rfl

theorem parsePairs_map (comb : Combinator) (cs : List FilterCondition)
    (h : ∀ c ∈ cs, condSafe c = true) :
    parsePairs (cs.map conditionWords) (cs.map (fun _ => comb)) =
      .ok (cs.map (fun c => (comb, FilterExpression.cond c))) := by
  induction cs with
  | nil => rfl
  | cons c cs ih =>
      simp only [List.map_cons, parsePairs,
        parseConditionWords_conditionWords c (h c (List.mem_cons_self c cs)),
        ih (fun x hx => h x (List.mem_cons_of_mem _ hx))]
      rfl

theorem chainExpr_pairs (comb : Combinator) (cs : List FilterCondition) :
    ∀ e, chainExpr e (cs.map (fun c => (comb, FilterExpression.cond c))) =
      chainAstAux comb e cs := by
  induction cs with
  | nil => intro e; rfl
  | cons c cs ih =>
      intro e
      simp only [List.map_cons, chainExpr, chainAstAux]
      exact ih _

theorem parseChars_roundTrip (comb : Combinator) (c : FilterCondition)
    (cs : List FilterCondition) (hc : condSafe c = true)
    (hcs : ∀ x ∈ cs, condSafe x = true) :
    parseChars (serializeExpr (chainAstAux comb (.cond c) cs)) =
      .ok (chainAstAux comb (.cond c) cs) := by
  have hwords : exprWords (chainAstAux comb (.cond c) cs) =
      conditionWords c ++ tailWords comb cs := by
    rw [exprWords_chain]
    rfl
  have hgood : ∀ w ∈ exprWords (chainAstAux comb (.cond c) cs), goodWord w := by
    rw [hwords]
    intro w hw
    rcases List.mem_append.mp hw with h1 | h2
    · exact goodWord_cond c hc w h1
    · exact tailWords_good comb cs hcs w h2
  have hlex : lexAux (serializeExpr (chainAstAux comb (.cond c) cs)) .start =
      .ok (exprWords (chainAstAux comb (.cond c) cs)) := by
    rw [serializeExpr]
    exact lexAux_words _ hgood
  have hempty : (exprWords (chainAstAux comb (.cond c) cs)).isEmpty = false := by
    cases hx : exprWords (chainAstAux comb (.cond c) cs) with
    | nil => exact absurd hx (exprWords_ne_nil _)
    | cons a l => rfl
  have hsplit : splitGroups (exprWords (chainAstAux comb (.cond c) cs)) [] =
      (conditionWords c :: cs.map conditionWords, cs.map (fun _ => comb)) := by
    rw [hwords,
      splitGroups_skip (conditionWords c) _ [] (not_comb_cond c hc),
      splitGroups_tail comb cs hcs]
    simp
  simp only [parseChars]
  rw [hlex]
  simp only [hempty, Bool.false_eq_true, if_false, hsplit]
  simp only [parseGroups, parseConditionWords_conditionWords c hc,
    parsePairs_map comb cs hcs]
  exact congrArg Except.ok (chainExpr_pairs comb cs (.cond c))

/-- The AST built directly from the conditions and the group operator:
the left-associative uniform chain (a dummy leaf for the empty list). -/
def directAst (cs : List FilterCondition) (grpOr : Bool) : FilterExpression :=
  match cs with
  | [] => .cond ⟨.done, .eq, .bool true⟩
  | c :: rest => chainAstAux (if grpOr then .or else .and) (.cond c) rest

/-- Claim C3 (amended): for every non-empty condition list all of whose
values are round-trip safe — scalars always are (unsafe strings get
quoted), arrays must be non-empty with elements that are numbers or
plain non-numeric strings — parsing the string the build action obtains
from the FilterBuilder succeeds and yields an AST evaluation-equivalent
(here: equal) to the one built directly from the conditions. -/
theorem build_parse_roundTrip (cs : List FilterCondition) (grpOr : Bool)
    (hne : cs ≠ []) (hsafe : ∀ c ∈ cs, condSafe c = true) :
    ∃ e, parseChars (buildActionFilter cs grpOr) = .ok e ∧
      ∀ t, evaluate e t = evaluate (directAst cs grpOr) t := by
  cases cs with
  | nil => exact absurd rfl hne
  | cons c rest =>
      refine ⟨directAst (c :: rest) grpOr, ?_, fun t => rfl⟩
      have hb : buildActionFilter (c :: rest) grpOr =
          serializeExpr (chainAstAux (if grpOr then .or else .and)
            (.cond c) rest) := by
        show (buildSteps grpOr ⟨some (.cond c), .and⟩ rest).toStringChars = _
        rw [buildSteps_chain]
        rfl
      rw [hb, show directAst (c :: rest) grpOr =
        chainAstAux (if grpOr then .or else .and) (.cond c) rest from rfl]
      exact parseChars_roundTrip _ c rest (hsafe c (List.mem_cons_self c rest))
        (fun x hx => hsafe x (List.mem_cons_of_mem _ hx))

/-- Witness for C3 (amended): the Scenario A condition pair round-trips. -/
theorem build_parse_roundTrip_witness :
    ∃ e, parseChars (buildActionFilter
        [⟨.priority, .ge, .num 3⟩, ⟨.done, .eq, .bool false⟩] false) = .ok e ∧
      ∀ t, evaluate e t =
        evaluate (directAst
          [⟨.priority, .ge, .num 3⟩, ⟨.done, .eq, .bool false⟩] false) t :=
  build_parse_roundTrip [⟨.priority, .ge, .num 3⟩, ⟨.done, .eq, .bool false⟩]
    false (by decide) (by decide)

/-- Counterexample to C3 as stated: an array value holding the string
element 2 serializes to `labels in (2)`, which re-parses with a numeric
element; on a task labelled 2 the re-parsed AST evaluates true while the
directly built AST evaluates false, so the round trip is not
evaluation-preserving for every condition list. -/
theorem build_parse_roundTrip_cex :
    parseChars (buildActionFilter
        [⟨.labels, .inOp, .arr [.str "2".data]⟩] false) =
      .ok (.cond ⟨.labels, .inOp, .arr [.num 2]⟩) ∧
    evaluate (.cond ⟨.labels, .inOp, .arr [.num 2]⟩)
      { labels := some [2] } = true ∧
    evaluate (directAst [⟨.labels, .inOp, .arr [.str "2".data]⟩] false)
      { labels := some [2] } = false := by
  refine ⟨by decide, by decide, by decide⟩
